import Mathlib

/-!
Shallow embedding of the port-publishing subsystem of a container engine:
the explicit-mapping validator `parsePortMapping`, the auto-expose merger
`createPortMappings`, and the protocol-set validator `checkProtocol`,
together with proofs of the specification's testable properties.

Go `uint16` values are represented as naturals (with `% 65536` at the points
where Go performs wrapping 16-bit addition), Go `int32` output fields as
integers, Go maps with zero-value lookup as total functions defaulting to 0,
and fallible Go functions as `Except String`.
-/

instance {ε α : Type} [DecidableEq ε] [DecidableEq α] : DecidableEq (Except ε α) := fun a b =>
  match a, b with
  | Except.error e1, Except.error e2 =>
    if h : e1 = e2 then Decidable.isTrue (by rw [h])
    else Decidable.isFalse (by intro hh; cases hh; exact h rfl)
  | Except.error _, Except.ok _ => Decidable.isFalse (by intro hh; cases hh)
  | Except.ok _, Except.error _ => Decidable.isFalse (by intro hh; cases hh)
  | Except.ok a1, Except.ok a2 =>
    if h : a1 = a2 then Decidable.isTrue (by rw [h])
    else Decidable.isFalse (by intro hh; cases hh; exact h rfl)

/-- Split a character list at every occurrence of `c` (auxiliary). -/
def splitCharAux (c : Char) : List Char → List Char → List String
  | [], cur => [String.mk cur.reverse]
  | x :: xs, cur =>
    if x = c then String.mk cur.reverse :: splitCharAux c xs []
    else splitCharAux c xs (x :: cur)

/-- Go `strings.Split(s, sep)` for the single-character separators used in
this file (`","`, `"."`); on the empty string it yields `[""]`, as Go does. -/
def splitChar (s : String) (c : Char) : List String :=
  splitCharAux c s.data []

/-- Decimal digit value of a character, if it is a digit. -/
def charDigit (c : Char) : Option Nat :=
  if '0' ≤ c ∧ c ≤ '9' then some (c.toNat - '0'.toNat) else none

def parseDecAux : List Char → Nat → Option Nat
  | [], acc => some acc
  | c :: cs, acc =>
    match charDigit c with
    | none => none
    | some d => parseDecAux cs (acc * 10 + d)

/-- Parse a nonempty all-digit string as a natural number. -/
def parseDec (s : String) : Option Nat :=
  match s.data with
  | [] => none
  | l => parseDecAux l 0

/-- Go `strconv.Atoi`, restricted to the magnitudes that occur here: an
optional sign followed by decimal digits. -/
def parseGoInt (s : String) : Option Int :=
  match s.data with
  | '+' :: rest => (parseDecAux' rest).map (fun n => (n : Int))
  | '-' :: rest => (parseDecAux' rest).map (fun n => -(n : Int))
  | _ => (parseDec s).map (fun n => (n : Int))
where
  parseDecAux' (l : List Char) : Option Nat :=
    match l with
    | [] => none
    | _ => parseDecAux l 0

def protoTCP : String := "tcp"

def protoUDP : String := "udp"

def protoSCTP : String := "sctp"

/-- Input port-mapping request (`specgen.PortMapping`); all numeric fields
are Go `uint16` values, represented as naturals. -/
structure PortMapping where
  containerPort : Nat
  hostPort : Nat
  hostIP : String
  protocol : String
  range : Nat
deriving DecidableEq

/-- Output mapping (`ocicni.PortMapping`); `hostPort` and `containerPort`
are Go `int32` values, represented as integers. -/
structure OCIPortMapping where
  hostPort : Int
  containerPort : Int
  protocol : String
  hostIP : String
deriving DecidableEq

/-- The nested Go map `map[string]map[string]map[uint16]uint16` used for the
two conflict-tracking tables; an absent key reads as 0, exactly as a Go
zero-value map lookup does. -/
def ValidateTable : Type := String → String → Nat → Nat

/-- Go map store `t[p][ip][k] = v`. -/
def ValidateTable.set (t : ValidateTable) (p ip : String) (k v : Nat) : ValidateTable :=
  fun p2 ip2 k2 => if p2 = p ∧ ip2 = ip ∧ k2 = k then v else t p2 ip2 k2

def emptyTable : ValidateTable := fun _ _ _ => 0

/-- Accumulator for the deduplicating protocol set of `checkProtocol`
(`map[string]struct\x7b\x7d` with keys among tcp, udp, sctp). -/
structure ProtoSet where
  tcp : Bool
  udp : Bool
  sctp : Bool

/-- The validator `checkProtocol`: split a comma-separated protocol specifier, validate and
deduplicate it.  Go iterates the set in unspecified order; the result here is
kept in the canonical order tcp, udp, sctp (the spec states result order is
not significant). -/
def checkProtocol (protocol : String) (allowSCTP : Bool) : Except String (List String) := do
  let splitProto := splitChar protocol ','

  let pset ← splitProto.foldlM (fun (acc : ProtoSet) p =>
    if p = protoTCP ∨ p = "" then Except.ok { acc with tcp := true }
    else if p = protoUDP then Except.ok { acc with udp := true }
    else if p = protoSCTP then
      if !allowSCTP then Except.error "protocol SCTP is not allowed for exposed ports"
      else Except.ok { acc with sctp := true }
    else Except.error ("unrecognized protocol \"" ++ p ++ "\" in port mapping"))
    ⟨false, false, false⟩
  let finalProto := (if pset.tcp then [protoTCP] else []) ++
    (if pset.udp then [protoUDP] else []) ++ (if pset.sctp then [protoSCTP] else [])
  if finalProto.length = 0 then Except.error "no valid protocols specified for port mapping"
  else Except.ok finalProto

/-- Host-IP normalization of `parsePortMapping`: the empty string stands for
the IPv4 wildcard. -/
def resolveIP (s : String) : String := if s = "" then "0.0.0.0" else s

/-- Modelled from the spec: the `net.ParseIP` collaborator used for host-IP
validation (spec 4.3 step 2) is standard-library code that is not part of
this repository; it is modelled here for IPv4 dotted-quad syntax (four
nonempty decimal components, each at most 255). -/
def isValidIP (s : String) : Bool :=
  let comps := splitChar s '.'
  comps.length = 4 && comps.all (fun c =>
    match parseDec c with
    | some n => n ≤ 255
    | none => false)

/-- Auxiliary for `splitN2`. -/
def splitN2Aux (c : Char) : List Char → List Char → String × Option String
  | [], acc => (String.mk acc.reverse, none)
  | x :: xs, acc =>
    if x = c then (String.mk acc.reverse, some (String.mk xs))
    else splitN2Aux c xs (x :: acc)

/-- Go `strings.SplitN(s, sep, 2)` for a single-character separator: the
first component, and the remainder when the separator occurs. -/
def splitN2 (s : String) (c : Char) : String × Option String :=
  splitN2Aux c s.data []

/-- Go conversion `int32(n)` applied to a non-negative integer value `n`
(wrapping two's-complement conversion). -/
def int32ofNat (n : Nat) : Int :=
  if n % 4294967296 < 2147483648 then ((n % 4294967296 : Nat) : Int)
  else ((n % 4294967296 : Nat) : Int) - 4294967296

/-- The state threaded through `parsePortMapping`: the finalized mapping list
and the two conflict-tracking tables. -/
structure ParseState where
  finalMappings : List OCIPortMapping
  containerPortValidate : ValidateTable
  hostPortValidate : ValidateTable

/-- Body of the innermost loop of `parsePortMapping`: one offset `index` of
the requested range, for one protocol `p` and the normalized host IP
`hostIP`.  The Go additions `containerPort + index` and `hostPort + index`
are wrapping `uint16` additions, hence the `% 65536`.  The emitted entry
preserves the original (possibly empty) host-IP string `origHostIP`. -/
def rangeStep (origHostIP p hostIP : String) (containerPort hostPort : Nat)
    (st : ParseState) (index : Nat) : Except String ParseState :=
  let cPort := (containerPort + index) % 65536
  let hPort := (hostPort + index) % 65536
  if cPort = 0 ∨ hPort = 0 then Except.error "host and container ports cannot be 0"
  else
    let testCPort := st.containerPortValidate p hostIP cPort
    if testCPort ≠ 0 ∧ testCPort ≠ hPort then
      Except.error ("conflicting port mappings for container port " ++ toString cPort ++
        " (protocol " ++ p ++ ")")
    else
      let st1 : ParseState :=
        { st with containerPortValidate := st.containerPortValidate.set p hostIP cPort hPort }
      let testHPort := st.hostPortValidate p hostIP hPort
      if testHPort ≠ 0 ∧ testHPort ≠ cPort then
        Except.error ("conflicting port mappings for host port " ++ toString hPort ++
          " (protocol " ++ p ++ ")")
      else
        let st2 : ParseState :=
          { st1 with hostPortValidate := st1.hostPortValidate.set p hostIP hPort cPort }
        if testCPort = hPort ∧ testHPort = cPort then Except.ok st2
        else Except.ok { st2 with finalMappings := st2.finalMappings ++
          [{ hostPort := (hPort : Int), containerPort := (cPort : Int),
             protocol := p, hostIP := origHostIP }] }

/-- One iteration of the main loop of `parsePortMapping`: validate a single
request and expand its range for every resolved protocol. -/
def processPortMapping (ipOK : String → Bool) (st : ParseState) (port : PortMapping) :
    Except String ParseState := do
  let protocols ← checkProtocol port.protocol true
  let hostIP := resolveIP port.hostIP
  if ipOK hostIP = false then
    Except.error ("invalid IP address " ++ port.hostIP ++ " in port mapping")
  else
    let len := if port.range = 0 then 1 else port.range
    let containerPort := port.containerPort
    if containerPort = 0 then Except.error "container port number must be non-0"
    else
      let hostPort := if port.hostPort = 0 then containerPort else port.hostPort
      if (len - 1) + containerPort > 65535 then
        Except.error "container port range exceeds maximum allowable port number"
      else if (len - 1) + hostPort > 65536 then
        Except.error "host port range exceeds maximum allowable port number"
      else
        protocols.foldlM (fun st2 p =>
          (List.range len).foldlM (rangeStep port.hostIP p hostIP containerPort hostPort) st2) st

/-- The validator `parsePortMapping`: validate the request list and produce the finalized
mapping list plus the container-to-host and host-to-container tables.  The
`ipOK` parameter abstracts the `net.ParseIP` validity test. -/
def parsePortMapping (ipOK : String → Bool) (portMappings : List PortMapping) :
    Except String (List OCIPortMapping × ValidateTable × ValidateTable) := do
  let st ← portMappings.foldlM (processPortMapping ipOK) ⟨[], emptyTable, emptyTable⟩
  Except.ok (st.finalMappings, st.containerPortValidate, st.hostPortValidate)

/-- The finalized-mapping component of `parsePortMapping`. -/
def parsedMappings (ipOK : String → Bool) (portMappings : List PortMapping) :
    Except String (List OCIPortMapping) :=
  (parsePortMapping ipOK portMappings).map (fun r => r.1)

/-- Go map insertion `m[k] = v` on the association-list model of a
`map[uint16]string`; Go map iteration order is unspecified, entries are kept
here in first-insertion order. -/
def setEntry (m : List (Nat × String)) (k : Nat) (v : String) : List (Nat × String) :=
  if m.any (fun e => e.1 = k) then m.map (fun e => if e.1 = k then (k, v) else e)
  else m ++ [(k, v)]

/-- The expose-set merge of `createPortMappings`: copy `s.Expose`, then
overlay the image-declared exposed ports (format `port[/protocol]`,
protocol defaulting to tcp).  Go `strconv.Atoi` is modelled by
`parseGoInt`. -/
def mergeExpose (sExpose : List (Nat × String)) (imgPorts : List String) :
    Except String (List (Nat × String)) := do
  let expose0 := sExpose.foldl (fun acc e => setEntry acc e.1 e.2) []
  imgPorts.foldlM (fun acc imgExpose =>
    match splitN2 imgExpose '/' with
    | (numStr, restProto) =>
      match parseGoInt numStr with
      | none => Except.error ("unable to convert image EXPOSE statement \"" ++ imgExpose ++
          "\" to port number")
      | some num =>
        if num > 65535 ∨ num < 1 then
          Except.error (toString num ++ " from image EXPOSE statement \"" ++ imgExpose ++
            "\" is not a valid port number")
        else
          match restProto with
          | none => Except.ok (setEntry acc num.toNat "tcp")
          | some protoStr => Except.ok (setEntry acc num.toNat protoStr)) expose0

/-- Go `toExpose[port] = append(toExpose[port], p)` on the association-list
model of `map[uint16][]string`. -/
def addToExpose (m : List (Nat × List String)) (port : Nat) (p : String) :
    List (Nat × List String) :=
  if m.any (fun e => e.1 = port) then
    m.map (fun e => if e.1 = port then (e.1, e.2 ++ [p]) else e)
  else m ++ [(port, [p])]

/-- Inner accumulation of the `toExpose` loop: one protocol `p` of exposed
port `q` is kept exactly when the container-to-host table has no claim for
`q` under the wildcard host IP. -/
def protoStep (containerPortValidate : ValidateTable) (q : Nat)
    (acc2 : List (Nat × List String)) (p : String) : List (Nat × List String) :=
  if containerPortValidate p "0.0.0.0" q = 0 then addToExpose acc2 q p else acc2

/-- One entry of the expose set processed by the `toExpose` loop of
`createPortMappings`. -/
def exposeStep (containerPortValidate : ValidateTable)
    (acc : List (Nat × List String)) (e : Nat × String) :
    Except String (List (Nat × List String)) :=
  match checkProtocol e.2 false with
  | Except.error err =>
    Except.error ("error validating protocols for exposed port " ++ toString e.1 ++ ": " ++ err)
  | Except.ok protocols =>
    if e.1 = 0 then Except.error "cannot expose 0 as it is not a valid port number"
    else Except.ok (protocols.foldl (protoStep containerPortValidate e.1) acc)

/-- The `toExpose` construction of `createPortMappings`: for each exposed
port, keep exactly the protocols under which the container port is not
already claimed in the container-to-host table under the wildcard host IP. -/
def buildToExpose (containerPortValidate : ValidateTable) (expose : List (Nat × String)) :
    Except String (List (Nat × List String)) :=
  expose.foldlM (exposeStep containerPortValidate) []

/-- The bounded host-port probe loop of `createPortMappings` for one exposed
container port and protocol.  `oracle i` is the result of the `i`-th call to
the Ephemeral Port Source `getRandomPort`; the natural number paired with the
result is the next unconsumed oracle index, so the number of probe attempts
made is observable.  The hypothesis `0 < port` records that exposed ports are
validated nonzero before this loop runs (the Go loop does not terminate when
asked to publish container port 0 while the probe keeps returning 0). -/
def allocLoop (oracle : Nat → Nat) (p : String) (port : Nat) (hp : 0 < port)
    (hostTable : ValidateTable) (mappings : List OCIPortMapping)
    (idx hostPort tries : Nat) :
    Except String (ValidateTable × List OCIPortMapping) × Nat :=
  if h : hostPort = 0 ∧ 0 < tries then
    let candidate := oracle idx
    if hcol : hostTable p "0.0.0.0" (candidate % 65536) ≠ 0 then
      allocLoop oracle p port hp hostTable mappings (idx + 1) hostPort (tries - 1)
    else
      let hostTable2 := hostTable.set p "0.0.0.0" (candidate % 65536) port
      let mappings2 := mappings ++
        [{ hostPort := int32ofNat candidate, containerPort := (port : Int),
           protocol := p, hostIP := "" }]
      allocLoop oracle p port hp hostTable2 mappings2 (idx + 1) candidate tries
  else if tries = 0 ∧ hostPort = 0 then
    (Except.error ("failed to find an open port to expose container port " ++
      toString port ++ " on the host"), idx)
  else (Except.ok (hostTable, mappings), idx)
termination_by
  (if hostPort = 0 then 1 + tries + (if hostTable p "0.0.0.0" 0 = 0 then 1 else 0) else 0)
decreasing_by
  · obtain ⟨h0, ht⟩ := h
    subst h0
    simp only [eq_self_iff_true, if_true]
    omega
  · obtain ⟨h0, ht⟩ := h
    subst h0
    have hfree : hostTable p "0.0.0.0" (oracle idx % 65536) = 0 := not_not.mp hcol
    have hport : port ≠ 0 := Nat.pos_iff_ne_zero.mp hp
    by_cases hc : oracle idx = 0
    · have hfree0 : hostTable p "0.0.0.0" 0 = 0 := by rw [hc] at hfree; simpa using hfree
      simp [hc, ValidateTable.set, hport, hfree0]
    · simp only [if_neg hc, eq_self_iff_true, if_true]
      omega

/-- Auto-publish one exposed container port under each of its protocols,
threading the host-to-container table, the mapping list and the oracle
index.  The `port = 0` branch is unreachable in `createPortMappings`:
`buildToExpose` only emits validated nonzero ports. -/
def allocPort (oracle : Nat → Nat) (port : Nat) (protocols : List String)
    (acc : ValidateTable × List OCIPortMapping × Nat) :
    Except String (ValidateTable × List OCIPortMapping × Nat) :=
  if h : port = 0 then Except.ok acc
  else
    protocols.foldlM (fun acc2 p =>
      match allocLoop oracle p port (Nat.pos_of_ne_zero h) acc2.1 acc2.2.1 acc2.2.2 0 15 with
      | (Except.error e, _) => Except.error e
      | (Except.ok (t, ms), idx2) => Except.ok (t, ms, idx2)) acc

/-- The merger `createPortMappings`: run the validator, then merge and auto-publish
exposed ports.  `img = none` models a nil image; `img = some l` models an
image whose inspection succeeds and declares exposed-port strings `l`
(image inspection itself is an external collaborator). -/
def createPortMappings (ipOK : String → Bool) (oracle : Nat → Nat)
    (publishExposedPorts : Bool) (portMappings : List PortMapping)
    (sExpose : List (Nat × String)) (img : Option (List String)) :
    Except String (List OCIPortMapping) := do
  let (finalMappings, containerPortValidate, hostPortValidate) ←
    parsePortMapping ipOK portMappings
  if publishExposedPorts = false ∨ (sExpose.length = 0 ∧ img = none) then
    Except.ok finalMappings
  else do
    let expose ← mergeExpose sExpose (img.getD [])
    let toExpose ← buildToExpose containerPortValidate expose
    let r ← toExpose.foldlM (fun acc e => allocPort oracle e.1 e.2 acc)
      (hostPortValidate, finalMappings, 0)
    Except.ok r.2.1

/-! ### Basic reduction lemmas -/

theorem exbind_ok {α β : Type} (a : α) (f : α → Except String β) :
    (Except.ok a : Except String α) >>= f = f a := rfl

theorem exbind_err {α β : Type} (e : String) (f : α → Except String β) :
    (Except.error e : Except String α) >>= f = Except.error e := rfl

/-- Pointwise description of a table update. -/
theorem set_lookup (t : ValidateTable) (p ip : String) (k v : Nat) (p2 ip2 : String) (k2 : Nat) :
    t.set p ip k v p2 ip2 k2 = if p2 = p ∧ ip2 = ip ∧ k2 = k then v else t p2 ip2 k2 := rfl

/-- The conversion `int32(n)` is the identity on port-sized values. -/
theorem int32ofNat_small (n : Nat) (h : n ≤ 65535) : int32ofNat n = (n : Int) := by
  unfold int32ofNat
  rw [Nat.mod_eq_of_lt (by omega)]
  rw [if_pos (by omega)]

/-- A single successful probe: the first oracle value is free in the
host-to-container table and nonzero, so the loop accepts it, records it and
stops after one attempt. -/
theorem allocLoop_accept (oracle : Nat → Nat) (p : String) (port : Nat) (hp : 0 < port)
    (table : ValidateTable) (ms : List OCIPortMapping) (idx tries : Nat)
    (hfree : table p "0.0.0.0" (oracle idx % 65536) = 0) (hnz : oracle idx ≠ 0)
    (htr : 0 < tries) :
    allocLoop oracle p port hp table ms idx 0 tries =
      (Except.ok (table.set p "0.0.0.0" (oracle idx % 65536) port,
        ms ++ [{ hostPort := int32ofNat (oracle idx), containerPort := (port : Int),
                 protocol := p, hostIP := "" }]), idx + 1) := by
  rw [allocLoop]
  rw [dif_pos (And.intro rfl htr)]
  rw [dif_neg (not_not.mpr hfree)]
  rw [allocLoop]
  rw [dif_neg (by simp [hnz])]
  rw [if_neg (by simp [hnz])]

/-- If every probe collides with an entry of the host-to-container table, the
loop fails with the exhaustion error after consuming exactly `tries` oracle
values. -/
theorem allocLoop_exhaust (oracle : Nat → Nat) (p : String) (port : Nat) (hp : 0 < port)
    (table : ValidateTable) (ms : List OCIPortMapping)
    (hcol : ∀ i, table p "0.0.0.0" (oracle i % 65536) ≠ 0) :
    ∀ tries idx, allocLoop oracle p port hp table ms idx 0 tries =
      (Except.error ("failed to find an open port to expose container port " ++
        toString port ++ " on the host"), idx + tries) := by
  intro tries
  induction tries with
  | zero =>
    intro idx
    rw [allocLoop]
    rw [dif_neg (by simp)]
    rw [if_pos (And.intro rfl rfl), Nat.add_zero]
  | succ t ih =>
    intro idx
    rw [allocLoop]
    rw [dif_pos (And.intro rfl (Nat.succ_pos t))]
    rw [dif_pos (hcol idx)]
    simp only [Nat.add_sub_cancel]
    rw [ih (idx + 1)]
    have harith : idx + 1 + t = idx + (t + 1) := by omega
    rw [harith]

/-! ### Invariants of the validator -/

def ZeroFree (t : ValidateTable) : Prop := ∀ p ip, t p ip 0 = 0

/-- The two conflict tables are mutual mirrors: a claimed container port's
host port points back at it, and conversely. -/
def Mirror (ctr host : ValidateTable) : Prop :=
  (∀ p ip c, ctr p ip c ≠ 0 → host p ip (ctr p ip c) = c) ∧
  (∀ p ip h, host p ip h ≠ 0 → ctr p ip (host p ip h) = h)

/-- Two finalized mappings do not collide: if they agree on protocol and
resolved host IP they differ in both host port and container port. -/
def OKPair (m1 m2 : OCIPortMapping) : Prop :=
  m1.protocol = m2.protocol → resolveIP m1.hostIP = resolveIP m2.hostIP →
    m1.hostPort ≠ m2.hostPort ∧ m1.containerPort ≠ m2.containerPort

/-- A finalized mapping is recorded in both conflict tables. -/
def Registered (ctr host : ValidateTable) (m : OCIPortMapping) : Prop :=
  ctr m.protocol (resolveIP m.hostIP) m.containerPort.toNat ≠ 0 ∧
  host m.protocol (resolveIP m.hostIP) m.hostPort.toNat ≠ 0

def InRange (m : OCIPortMapping) : Prop :=
  1 ≤ m.hostPort ∧ m.hostPort ≤ 65535 ∧ 1 ≤ m.containerPort ∧ m.containerPort ≤ 65535

def ParseInv (st : ParseState) : Prop :=
  ZeroFree st.containerPortValidate ∧ ZeroFree st.hostPortValidate ∧
  Mirror st.containerPortValidate st.hostPortValidate ∧
  (∀ m ∈ st.finalMappings, Registered st.containerPortValidate st.hostPortValidate m) ∧
  st.finalMappings.Pairwise OKPair ∧
  (∀ m ∈ st.finalMappings, InRange m)

theorem foldlM_ok_induction {α σ : Type} (f : σ → α → Except String σ) (P : σ → Prop)
    (hf : ∀ s a s2, P s → f s a = Except.ok s2 → P s2) :
    ∀ (l : List α) (s s2 : σ), P s → l.foldlM f s = Except.ok s2 → P s2 := by
  intro l
  induction l with
  | nil =>
    intro s s2 hs h
    simp only [List.foldlM_nil] at h
    have hss : s = s2 := Except.ok.inj h
    subst hss
    exact hs
  | cons a l ih =>
    intro s s2 hs h
    rw [List.foldlM_cons] at h
    cases hfa : f s a with
    | error e =>
      rw [hfa, exbind_err] at h
      exact Except.noConfusion h
    | ok s1 =>
      rw [hfa, exbind_ok] at h
      exact ih s1 s2 (hf s a s1 hs hfa) h

theorem lookup_mono (t : ValidateTable) (p ip : String) (k v : Nat)
    (hold : t p ip k = 0 ∨ t p ip k = v) :
    ∀ p2 ip2 k2, t p2 ip2 k2 ≠ 0 → t.set p ip k v p2 ip2 k2 = t p2 ip2 k2 := by
  intro p2 ip2 k2 hne
  rw [set_lookup]
  split
  case isTrue hcase =>
    obtain ⟨hp2, hip2, hk2⟩ := hcase
    subst hp2; subst hip2; subst hk2
    rcases hold with h0 | hv
    · exact absurd h0 hne
    · exact hv.symm
  case isFalse hcase => rfl

theorem zeroFree_update (t : ValidateTable) (p ip : String) (k v : Nat)
    (hk : k ≠ 0) (hz : ZeroFree t) : ZeroFree (t.set p ip k v) := by
  intro p2 ip2
  rw [set_lookup, if_neg (fun hcase => hk (hcase.2.2.symm))]
  exact hz p2 ip2

theorem mirror_half_update (ctr host : ValidateTable) (p ip : String) (c h : Nat)
    (hhd : host p ip h = 0 ∨ host p ip h = c)
    (hz1 : ZeroFree ctr)
    (hm1 : ∀ p2 ip2 c2, ctr p2 ip2 c2 ≠ 0 → host p2 ip2 (ctr p2 ip2 c2) = c2) :
    ∀ p2 ip2 c2, (ctr.set p ip c h) p2 ip2 c2 ≠ 0 →
      (host.set p ip h c) p2 ip2 ((ctr.set p ip c h) p2 ip2 c2) = c2 := by
  intro p2 ip2 c2 hne
  by_cases hkey : p2 = p ∧ ip2 = ip ∧ c2 = c
  · obtain ⟨hp2, hip2, hc2⟩ := hkey
    rw [hp2, hip2, hc2]
    have hv : (ctr.set p ip c h) p ip c = h := by rw [set_lookup, if_pos ⟨rfl, rfl, rfl⟩]
    rw [hv]
    rw [set_lookup, if_pos ⟨rfl, rfl, rfl⟩]
  · have hv : (ctr.set p ip c h) p2 ip2 c2 = ctr p2 ip2 c2 := by rw [set_lookup, if_neg hkey]
    rw [hv] at hne ⊢
    have hold := hm1 p2 ip2 c2 hne
    rw [set_lookup]
    by_cases hkey2 : p2 = p ∧ ip2 = ip ∧ ctr p2 ip2 c2 = h
    · rw [if_pos hkey2]
      obtain ⟨hp2, hip2, hvv⟩ := hkey2
      rw [hp2, hip2] at hvv
      rw [hp2, hip2] at hold
      rw [hvv] at hold
      rcases hhd with h0 | hcc
      · rw [h0] at hold
        exfalso
        rw [hp2, hip2, ← hold] at hne
        exact hne (hz1 p ip)
      · rw [hcc] at hold
        exact hold
    · rw [if_neg hkey2]
      exact hold

theorem mirror_update (ctr host : ValidateTable) (p ip : String) (c h : Nat)
    (hcd : ctr p ip c = 0 ∨ ctr p ip c = h)
    (hhd : host p ip h = 0 ∨ host p ip h = c)
    (hz1 : ZeroFree ctr) (hz2 : ZeroFree host) (hm : Mirror ctr host) :
    Mirror (ctr.set p ip c h) (host.set p ip h c) :=
  ⟨mirror_half_update ctr host p ip c h hhd hz1 hm.1,
   mirror_half_update host ctr p ip h c hcd hz2 hm.2⟩

theorem registered_update (ctr host : ValidateTable) (p ip : String) (c h : Nat)
    (hcd : ctr p ip c = 0 ∨ ctr p ip c = h)
    (hhd : host p ip h = 0 ∨ host p ip h = c)
    (m : OCIPortMapping) (hr : Registered ctr host m) :
    Registered (ctr.set p ip c h) (host.set p ip h c) m := by
  constructor
  · rw [lookup_mono ctr p ip c h hcd _ _ _ hr.1]
    exact hr.1
  · rw [lookup_mono host p ip h c hhd _ _ _ hr.2]
    exact hr.2

theorem int_toNat_cast (n : Nat) : ((n : Int)).toNat = n := rfl

theorem rangeStep_inv (origHostIP p : String) (cp hp0 index : Nat)
    (st st2 : ParseState) (hinv : ParseInv st)
    (h : rangeStep origHostIP p (resolveIP origHostIP) cp hp0 st index = Except.ok st2) :
    ParseInv st2 := by
  obtain ⟨hz1, hz2, hm, hreg, hpw, hrange⟩ := hinv
  simp only [rangeStep] at h
  set ip := resolveIP origHostIP with hipdef
  set cP := (cp + index) % 65536 with hcdef
  set hP := (hp0 + index) % 65536 with hhdef
  have hclt : cP < 65536 := by rw [hcdef]; exact Nat.mod_lt _ (by omega)
  have hhlt : hP < 65536 := by rw [hhdef]; exact Nat.mod_lt _ (by omega)
  split at h
  · exact Except.noConfusion h
  next hzero =>
    push_neg at hzero
    obtain ⟨hcne, hhne⟩ := hzero
    split at h
    · exact Except.noConfusion h
    next hconf =>
      split at h
      · exact Except.noConfusion h
      next hconf2 =>
        have hcd : st.containerPortValidate p ip cP = 0 ∨
            st.containerPortValidate p ip cP = hP := by
          by_cases h0 : st.containerPortValidate p ip cP = 0
          · exact Or.inl h0
          · right
            by_contra hne2
            exact hconf ⟨h0, hne2⟩
        have hhd : st.hostPortValidate p ip hP = 0 ∨
            st.hostPortValidate p ip hP = cP := by
          by_cases h0 : st.hostPortValidate p ip hP = 0
          · exact Or.inl h0
          · right
            by_contra hne2
            exact hconf2 ⟨h0, hne2⟩
        split at h
        next hdup =>
          have hst : st2 = { st with
              containerPortValidate := st.containerPortValidate.set p ip cP hP,
              hostPortValidate := st.hostPortValidate.set p ip hP cP } :=
            (Except.ok.inj h).symm
          subst hst
          refine ⟨?_, ?_, ?_, ?_, hpw, hrange⟩
          · exact zeroFree_update _ _ _ _ _ hcne hz1
          · exact zeroFree_update _ _ _ _ _ hhne hz2
          · exact mirror_update _ _ _ _ _ _ hcd hhd hz1 hz2 hm
          · intro m hmem
            exact registered_update _ _ _ _ _ _ hcd hhd m (hreg m hmem)
        next hndup =>
          have hcd0 : st.containerPortValidate p ip cP = 0 := by
            rcases hcd with h0 | hv
            · exact h0
            · exfalso
              have hcnz : st.containerPortValidate p ip cP ≠ 0 := by rw [hv]; exact hhne
              have hmir := hm.1 p ip cP hcnz
              rw [hv] at hmir
              exact hndup ⟨hv, hmir⟩
          have hhd0 : st.hostPortValidate p ip hP = 0 := by
            rcases hhd with h0 | hv
            · exact h0
            · exfalso
              have hhnz : st.hostPortValidate p ip hP ≠ 0 := by rw [hv]; exact hcne
              have hmir := hm.2 p ip hP hhnz
              rw [hv] at hmir
              rw [hcd0] at hmir
              exact hhne hmir.symm
          have hst : st2 = { st with
              finalMappings := st.finalMappings ++
                [{ hostPort := (hP : Int), containerPort := (cP : Int),
                   protocol := p, hostIP := origHostIP }],
              containerPortValidate := st.containerPortValidate.set p ip cP hP,
              hostPortValidate := st.hostPortValidate.set p ip hP cP } :=
            (Except.ok.inj h).symm
          subst hst
          refine ⟨?_, ?_, ?_, ?_, ?_, ?_⟩
          · exact zeroFree_update _ _ _ _ _ hcne hz1
          · exact zeroFree_update _ _ _ _ _ hhne hz2
          · exact mirror_update _ _ _ _ _ _ hcd hhd hz1 hz2 hm
          · intro m hmem
            rcases List.mem_append.mp hmem with hold | hnew
            · exact registered_update _ _ _ _ _ _ hcd hhd m (hreg m hold)
            · have hmeq := List.mem_singleton.mp hnew
              subst hmeq
              constructor
              · show (st.containerPortValidate.set p ip cP hP) p ip ((cP : Int)).toNat ≠ 0
                rw [int_toNat_cast, set_lookup, if_pos ⟨rfl, rfl, rfl⟩]
                exact hhne
              · show (st.hostPortValidate.set p ip hP cP) p ip ((hP : Int)).toNat ≠ 0
                rw [int_toNat_cast, set_lookup, if_pos ⟨rfl, rfl, rfl⟩]
                exact hcne
          · rw [List.pairwise_append]
            refine ⟨hpw, List.pairwise_singleton _ _, ?_⟩
            intro a ha b hb
            have hbeq := List.mem_singleton.mp hb
            subst hbeq
            intro hproto hipeq
            dsimp only at hproto hipeq
            obtain ⟨hr1, hr2⟩ := hreg a ha
            rw [hproto, hipeq] at hr1 hr2
            dsimp only
            constructor
            · intro heq
              rw [heq, int_toNat_cast] at hr2
              exact hr2 hhd0
            · intro heq
              rw [heq, int_toNat_cast] at hr1
              exact hr1 hcd0
          · intro m hmem
            rcases List.mem_append.mp hmem with hold | hnew
            · exact hrange m hold
            · have hmeq := List.mem_singleton.mp hnew
              subst hmeq
              refine ⟨?_, ?_, ?_, ?_⟩ <;>
                · dsimp only
                  omega

theorem parseInv_init : ParseInv ⟨[], emptyTable, emptyTable⟩ := by
  refine ⟨fun _ _ => rfl, fun _ _ => rfl, ⟨?_, ?_⟩, ?_, List.Pairwise.nil, ?_⟩
  · intro p ip c hne
    exact absurd rfl hne
  · intro p ip hx hne
    exact absurd rfl hne
  · intro m hmem
    exact absurd hmem (List.not_mem_nil m)
  · intro m hmem
    exact absurd hmem (List.not_mem_nil m)

theorem processPortMapping_inv (ipOK : String → Bool) (st : ParseState) (port : PortMapping)
    (st2 : ParseState) (hinv : ParseInv st)
    (h : processPortMapping ipOK st port = Except.ok st2) : ParseInv st2 := by
  simp only [processPortMapping] at h
  cases hcp : checkProtocol port.protocol true with
  | error e =>
    rw [hcp] at h
    exact Except.noConfusion h
  | ok protocols =>
    rw [hcp] at h
    rw [exbind_ok] at h
    repeat'
      first
        | exact Except.noConfusion h
        | split at h
    all_goals
    exact foldlM_ok_induction _ ParseInv
      (fun s a s2 hs hstep =>
        foldlM_ok_induction _ ParseInv
          (fun s1 i s3 hs1 hstep1 =>
            rangeStep_inv port.hostIP a port.containerPort _ i s1 s3 hs1 hstep1)
          _ s s2 hs hstep)
      protocols st st2 hinv h

theorem parsePortMapping_inv (ipOK : String → Bool) (pms : List PortMapping)
    (ms : List OCIPortMapping) (ctr host : ValidateTable)
    (h : parsePortMapping ipOK pms = Except.ok (ms, ctr, host)) :
    ParseInv ⟨ms, ctr, host⟩ := by
  simp only [parsePortMapping] at h
  cases hfold : pms.foldlM (processPortMapping ipOK) ⟨[], emptyTable, emptyTable⟩ with
  | error e =>
    rw [hfold, exbind_err] at h
    exact Except.noConfusion h
  | ok st =>
    rw [hfold, exbind_ok] at h
    have hinvst := foldlM_ok_induction _ ParseInv
      (fun s a s2 hs hstep => processPortMapping_inv ipOK s a s2 hs hstep)
      pms _ st parseInv_init hfold
    have htrip := Except.ok.inj h
    have hms : st.finalMappings = ms := congrArg Prod.fst htrip
    have hct : st.containerPortValidate = ctr := congrArg (fun x => x.2.1) htrip
    have hht : st.hostPortValidate = host := congrArg (fun x => x.2.2) htrip
    rw [← hms, ← hct, ← hht]
    exact hinvst

theorem exbind_ok_inv {α β : Type} (x : Except String α) (f : α → Except String β) (b : β)
    (h : x >>= f = Except.ok b) : ∃ a, x = Except.ok a ∧ f a = Except.ok b := by
  cases x with
  | error e =>
    rw [exbind_err] at h
    exact Except.noConfusion h
  | ok a =>
    rw [exbind_ok] at h
    exact ⟨a, rfl, h⟩

theorem allocLoop_ok_char (oracle : Nat → Nat) (p : String) (port : Nat) (hp : 0 < port)
    (hOr : ∀ i, 1 ≤ oracle i ∧ oracle i ≤ 65535) :
    ∀ (tries idx : Nat) (table : ValidateTable) (ms : List OCIPortMapping)
      (t2 : ValidateTable) (ms2 : List OCIPortMapping) (idx2 : Nat),
      allocLoop oracle p port hp table ms idx 0 tries = (Except.ok (t2, ms2), idx2) →
      ∃ cand, 1 ≤ cand ∧ cand ≤ 65535 ∧ table p "0.0.0.0" cand = 0 ∧
        t2 = table.set p "0.0.0.0" cand port ∧
        ms2 = ms ++ [{ hostPort := (cand : Int), containerPort := (port : Int),
                       protocol := p, hostIP := "" }] := by
  intro tries
  induction tries with
  | zero =>
    intro idx table ms t2 ms2 idx2 h
    rw [allocLoop] at h
    rw [dif_neg (by simp)] at h
    rw [if_pos ⟨rfl, rfl⟩] at h
    exact absurd (congrArg Prod.fst h) (by simp)
  | succ t ih =>
    intro idx table ms t2 ms2 idx2 h
    rw [allocLoop] at h
    rw [dif_pos ⟨rfl, Nat.succ_pos t⟩] at h
    by_cases hcol : table p "0.0.0.0" (oracle idx % 65536) ≠ 0
    · rw [dif_pos hcol] at h
      simp only [Nat.add_sub_cancel] at h
      exact ih (idx + 1) table ms t2 ms2 idx2 h
    · rw [dif_neg hcol] at h
      have hnz : oracle idx ≠ 0 := by have := (hOr idx).1; omega
      rw [allocLoop] at h
      rw [dif_neg (by simp [hnz])] at h
      rw [if_neg (by simp [hnz])] at h
      have hmod : oracle idx % 65536 = oracle idx :=
        Nat.mod_eq_of_lt (by have := (hOr idx).2; omega)
      have h1 := Except.ok.inj (congrArg Prod.fst h)
      have ht2 : t2 = table.set p "0.0.0.0" (oracle idx % 65536) port :=
        (congrArg Prod.fst h1).symm
      have hms2 : ms2 = ms ++
          [(⟨int32ofNat (oracle idx), (port : Int), p, ""⟩ : OCIPortMapping)] :=
        (congrArg Prod.snd h1).symm
      refine ⟨oracle idx, (hOr idx).1, (hOr idx).2, ?_, ?_, ?_⟩
      · rw [← hmod]
        exact not_not.mp hcol
      · rw [ht2, hmod]
      · rw [hms2, int32ofNat_small _ (hOr idx).2]

theorem checkProtocol_ok_props (proto : String) (allow : Bool) (ps : List String)
    (h : checkProtocol proto allow = Except.ok ps) : ps ≠ [] ∧ ps.Nodup := by
  simp only [checkProtocol] at h
  obtain ⟨pset, hps, h2⟩ := exbind_ok_inv _ _ _ h
  rcases pset with ⟨t, u, sc⟩
  cases t <;> cases u <;> cases sc <;> simp_all [protoTCP, protoUDP, protoSCTP] <;>
    subst h2 <;> decide

/-! ### Properties of the expose merge -/

def KeysOK {γ : Type} (m : List (Nat × γ)) : Prop := m.Pairwise (fun a b => a.1 ≠ b.1)

theorem setEntry_keysOK (m : List (Nat × String)) (k : Nat) (v : String)
    (h : KeysOK m) : KeysOK (setEntry m k v) := by
  unfold setEntry
  split
  next hany =>
    refine List.Pairwise.map _ ?_ h
    intro a b hab
    have hfa : (if a.1 = k then (k, v) else a).1 = a.1 := by
      split
      next hx => rw [hx]
      next => rfl
    have hfb : (if b.1 = k then (k, v) else b).1 = b.1 := by
      split
      next hx => rw [hx]
      next => rfl
    rw [hfa, hfb]
    exact hab
  next hany =>
    rw [KeysOK, List.pairwise_append]
    refine ⟨h, List.pairwise_singleton _ _, ?_⟩
    intro a ha b hb
    have hb2 := List.mem_singleton.mp hb
    subst hb2
    simp only [List.any_eq_true, decide_eq_true_eq] at hany
    push_neg at hany
    exact hany a ha

theorem foldl_setEntry_keysOK (l : List (Nat × String)) :
    ∀ acc, KeysOK acc → KeysOK (l.foldl (fun a e => setEntry a e.1 e.2) acc) := by
  induction l with
  | nil => intro acc h; exact h
  | cons e l ih =>
    intro acc h
    exact ih _ (setEntry_keysOK acc e.1 e.2 h)

theorem mergeExpose_keysOK (sExpose : List (Nat × String)) (imgPorts : List String)
    (ex : List (Nat × String)) (h : mergeExpose sExpose imgPorts = Except.ok ex) :
    KeysOK ex := by
  simp only [mergeExpose] at h
  refine foldlM_ok_induction _ KeysOK ?_ imgPorts _ ex
    (foldl_setEntry_keysOK sExpose [] List.Pairwise.nil) h
  intro s a s2 hs hstep
  repeat'
    first
      | exact Except.noConfusion hstep
      | split at hstep
  all_goals (have hse := Except.ok.inj hstep; rw [← hse]; exact setEntry_keysOK _ _ _ hs)

theorem addToExpose_present (accL : List (Nat × List String)) (q : Nat) (cur : List String)
    (p : String) (hfresh : ∀ e ∈ accL, e.1 ≠ q) :
    addToExpose (accL ++ [(q, cur)]) q p = accL ++ [(q, cur ++ [p])] := by
  unfold addToExpose
  rw [if_pos (by simp)]
  rw [List.map_append]
  have hmapL : accL.map (fun e => if e.1 = q then (e.1, e.2 ++ [p]) else e) = accL := by
    have h1 : accL.map (fun e => if e.1 = q then (e.1, e.2 ++ [p]) else e) = accL.map id :=
      List.map_congr_left (fun a ha => by rw [if_neg (hfresh a ha)]; rfl)
    rw [h1, List.map_id]
  rw [hmapL]
  simp

theorem addToExpose_fresh (acc : List (Nat × List String)) (q : Nat) (p : String)
    (hfresh : ∀ e ∈ acc, e.1 ≠ q) :
    addToExpose acc q p = acc ++ [(q, [p])] := by
  unfold addToExpose
  rw [if_neg]
  simp only [List.any_eq_true, decide_eq_true_eq]
  push_neg
  exact hfresh

theorem protoFold_present (ctr : ValidateTable) (q : Nat) :
    ∀ (ps : List String) (accL : List (Nat × List String)) (cur : List String),
    (∀ e ∈ accL, e.1 ≠ q) →
    ps.foldl (protoStep ctr q) (accL ++ [(q, cur)]) =
      accL ++ [(q, cur ++ ps.filter (fun p => ctr p "0.0.0.0" q = 0))] := by
  intro ps
  induction ps with
  | nil => intro accL cur h; simp
  | cons p ps ih =>
    intro accL cur h
    rw [List.foldl_cons]
    by_cases hfree : ctr p "0.0.0.0" q = 0
    · have hstep : protoStep ctr q (accL ++ [(q, cur)]) p = accL ++ [(q, cur ++ [p])] := by
        unfold protoStep
        rw [if_pos hfree]
        exact addToExpose_present accL q cur p h
      rw [hstep, ih accL (cur ++ [p]) h]
      simp [List.filter_cons, hfree]
    · have hstep : protoStep ctr q (accL ++ [(q, cur)]) p = accL ++ [(q, cur)] := by
        unfold protoStep
        rw [if_neg hfree]
      rw [hstep, ih accL cur h]
      simp [List.filter_cons, hfree]

theorem protoFold_fresh (ctr : ValidateTable) (q : Nat) (ps : List String)
    (acc : List (Nat × List String)) (hfresh : ∀ e ∈ acc, e.1 ≠ q) :
    ps.foldl (protoStep ctr q) acc =
      if ps.filter (fun p => ctr p "0.0.0.0" q = 0) = [] then acc
      else acc ++ [(q, ps.filter (fun p => ctr p "0.0.0.0" q = 0))] := by
  induction ps with
  | nil => simp
  | cons p ps ih =>
    rw [List.foldl_cons]
    by_cases hfree : ctr p "0.0.0.0" q = 0
    · have hstep : protoStep ctr q acc p = acc ++ [(q, [p])] := by
        unfold protoStep
        rw [if_pos hfree]
        exact addToExpose_fresh acc q p hfresh
      rw [hstep, protoFold_present ctr q ps acc [p] hfresh]
      simp [List.filter_cons, hfree]
    · have hstep : protoStep ctr q acc p = acc := by
        unfold protoStep
        rw [if_neg hfree]
      rw [hstep, ih]
      simp [List.filter_cons, hfree]

/-- Reference form of one `toExpose` step, on which bookkeeping lemmas are
proved; `buildToExpose` agrees with folding this step whenever it succeeds. -/
def teSpecStep (ctr : ValidateTable) (acc : List (Nat × List String)) (e : Nat × String) :
    List (Nat × List String) :=
  match checkProtocol e.2 false with
  | Except.error _ => acc
  | Except.ok protocols =>
    if protocols.filter (fun p => ctr p "0.0.0.0" e.1 = 0) = [] then acc
    else acc ++ [(e.1, protocols.filter (fun p => ctr p "0.0.0.0" e.1 = 0))]

theorem teSpecStep_sub (ctr : ValidateTable) (acc : List (Nat × List String))
    (e : Nat × String) : ∀ x ∈ teSpecStep ctr acc e, x ∈ acc ∨ x.1 = e.1 := by
  intro x hx
  unfold teSpecStep at hx
  split at hx
  · exact Or.inl hx
  · split at hx
    · exact Or.inl hx
    · rcases List.mem_append.mp hx with h1 | h2
      · exact Or.inl h1
      · have := List.mem_singleton.mp h2
        rw [this]
        exact Or.inr rfl

theorem teSpecStep_shape (ctr : ValidateTable) (acc : List (Nat × List String))
    (e : Nat × String) :
    teSpecStep ctr acc e = acc ∨
      ∃ f, f ≠ [] ∧ f = (match checkProtocol e.2 false with
            | Except.error _ => []
            | Except.ok protocols => protocols.filter (fun p => ctr p "0.0.0.0" e.1 = 0)) ∧
        teSpecStep ctr acc e = acc ++ [(e.1, f)] := by
  unfold teSpecStep
  split
  · exact Or.inl rfl
  next protocols hcp =>
    split
    · exact Or.inl rfl
    next hne =>
      right
      refine ⟨_, hne, ?_, rfl⟩
      rfl

theorem teSpec_extend (ctr : ValidateTable) :
    ∀ (l : List (Nat × String)) (acc : List (Nat × List String)),
    ∃ tail, l.foldl (teSpecStep ctr) acc = acc ++ tail ∧
      ∀ e ∈ tail, ∃ e0 ∈ l, e.1 = e0.1 := by
  intro l
  induction l with
  | nil =>
    intro acc
    exact ⟨[], by simp, by intro e he; exact absurd he (List.not_mem_nil e)⟩
  | cons e l ih =>
    intro acc
    rw [List.foldl_cons]
    obtain ⟨tail, htail, hmem⟩ := ih (teSpecStep ctr acc e)
    rcases teSpecStep_shape ctr acc e with hs | ⟨f, hf, hfv, hs⟩
    · rw [hs] at htail ⊢
      refine ⟨tail, htail, ?_⟩
      intro x hx
      obtain ⟨e0, he0, hk⟩ := hmem x hx
      exact ⟨e0, List.mem_cons_of_mem e he0, hk⟩
    · rw [hs] at htail ⊢
      rw [htail, List.append_assoc]
      refine ⟨_, rfl, ?_⟩
      intro x hx
      rcases List.mem_append.mp hx with h1 | h2
      · have hx2 := List.mem_singleton.mp h1
        rw [hx2]
        exact ⟨e, List.mem_cons_self e l, rfl⟩
      · obtain ⟨e0, he0, hk⟩ := hmem x h2
        exact ⟨e0, List.mem_cons_of_mem e he0, hk⟩

theorem buildToExpose_char (ctr : ValidateTable) :
    ∀ (expose : List (Nat × String)) (acc : List (Nat × List String))
      (te : List (Nat × List String)),
    KeysOK expose →
    (∀ e2 ∈ acc, ∀ e ∈ expose, e2.1 ≠ e.1) →
    expose.foldlM (exposeStep ctr) acc = Except.ok te →
    te = expose.foldl (teSpecStep ctr) acc := by
  intro expose
  induction expose with
  | nil =>
    intro acc te hkeys hfresh h
    simp only [List.foldlM_nil] at h
    rw [List.foldl_nil]
    exact (Except.ok.inj h).symm
  | cons e rest ih =>
    intro acc te hkeys hfresh h
    rw [List.foldlM_cons] at h
    obtain ⟨acc2, hstep, hrest⟩ := exbind_ok_inv _ _ _ h
    rw [List.foldl_cons]
    unfold exposeStep at hstep
    cases hcp : checkProtocol e.2 false with
    | error err =>
      rw [hcp] at hstep
      exact Except.noConfusion hstep
    | ok protocols =>
      rw [hcp] at hstep
      dsimp only at hstep
      split at hstep
      · exact Except.noConfusion hstep
      next hq0 =>
        have hacc2 : acc2 = protocols.foldl (protoStep ctr e.1) acc :=
          (Except.ok.inj hstep).symm
        have hfreshq : ∀ e2 ∈ acc, e2.1 ≠ e.1 :=
          fun e2 he2 => hfresh e2 he2 e (List.mem_cons_self e rest)
        have hspec : acc2 = teSpecStep ctr acc e := by
          rw [hacc2, protoFold_fresh ctr e.1 protocols acc hfreshq]
          unfold teSpecStep
          rw [hcp]
        have hkeysrest : KeysOK rest := List.Pairwise.sublist (List.sublist_cons_self e rest) hkeys
        have hheadkeys : ∀ e3 ∈ rest, e.1 ≠ e3.1 :=
          fun e3 he3 => List.rel_of_pairwise_cons hkeys he3
        have hfresh2 : ∀ e2 ∈ acc2, ∀ e3 ∈ rest, e2.1 ≠ e3.1 := by
          intro e2 he2 e3 he3
          rw [hspec] at he2
          rcases teSpecStep_sub ctr acc e e2 he2 with hin | hkey
          · exact hfresh e2 hin e3 (List.mem_cons_of_mem e he3)
          · rw [hkey]
            exact hheadkeys e3 he3
        rw [← hspec]
        exact ih acc2 te hkeysrest hfresh2 hrest

theorem teSpec_keysOK (ctr : ValidateTable) :
    ∀ (expose : List (Nat × String)) (acc : List (Nat × List String)),
    KeysOK expose →
    (∀ e2 ∈ acc, ∀ e ∈ expose, e2.1 ≠ e.1) →
    KeysOK acc →
    KeysOK (expose.foldl (teSpecStep ctr) acc) := by
  intro expose
  induction expose with
  | nil => intro acc _ _ h; exact h
  | cons e rest ih =>
    intro acc hkeys hfresh hacc
    rw [List.foldl_cons]
    have hkeysrest : KeysOK rest := List.Pairwise.sublist (List.sublist_cons_self e rest) hkeys
    have hheadkeys : ∀ e3 ∈ rest, e.1 ≠ e3.1 :=
      fun e3 he3 => List.rel_of_pairwise_cons hkeys he3
    have hfreshq : ∀ e2 ∈ acc, e2.1 ≠ e.1 :=
      fun e2 he2 => hfresh e2 he2 e (List.mem_cons_self e rest)
    have hfresh2 : ∀ e2 ∈ teSpecStep ctr acc e, ∀ e3 ∈ rest, e2.1 ≠ e3.1 := by
      intro e2 he2 e3 he3
      rcases teSpecStep_sub ctr acc e e2 he2 with hin | hkey
      · exact hfresh e2 hin e3 (List.mem_cons_of_mem e he3)
      · rw [hkey]
        exact hheadkeys e3 he3
    have hacc2 : KeysOK (teSpecStep ctr acc e) := by
      rcases teSpecStep_shape ctr acc e with hs | ⟨f, hf, hfv, hs⟩
      · rw [hs]; exact hacc
      · rw [hs, KeysOK, List.pairwise_append]
        refine ⟨hacc, List.pairwise_singleton _ _, ?_⟩
        intro a ha b hb
        have hb2 := List.mem_singleton.mp hb
        rw [hb2]
        exact hfreshq a ha
    exact ih _ hkeysrest hfresh2 hacc2

theorem teSpec_entries (ctr : ValidateTable) :
    ∀ (expose : List (Nat × String)) (acc : List (Nat × List String)),
    ∀ x ∈ expose.foldl (teSpecStep ctr) acc, x ∈ acc ∨
      ∃ e ∈ expose, ∃ protocols, checkProtocol e.2 false = Except.ok protocols ∧
        x.1 = e.1 ∧ x.2 = protocols.filter (fun p => ctr p "0.0.0.0" e.1 = 0) ∧ x.2 ≠ [] := by
  intro expose
  induction expose with
  | nil => intro acc x hx; exact Or.inl hx
  | cons e rest ih =>
    intro acc x hx
    rw [List.foldl_cons] at hx
    rcases ih (teSpecStep ctr acc e) x hx with hin | ⟨e0, he0, protocols, hcp, hk, hv, hnem⟩
    · unfold teSpecStep at hin
      split at hin
      · exact Or.inl hin
      next protocols hcp =>
        split at hin
        · exact Or.inl hin
        next hne =>
          rcases List.mem_append.mp hin with h1 | h2
          · exact Or.inl h1
          · have hx2 := List.mem_singleton.mp h2
            right
            refine ⟨e, List.mem_cons_self e rest, protocols, hcp, ?_, ?_, ?_⟩
            · rw [hx2]
            · rw [hx2]
            · rw [hx2]
              exact hne
    · exact Or.inr ⟨e0, List.mem_cons_of_mem e he0, protocols, hcp, hk, hv, hnem⟩

def lookupTE (te : List (Nat × List String)) (q : Nat) : List String :=
  match te.find? (fun e => e.1 == q) with
  | none => []
  | some e => e.2

theorem lookupTE_cons_hit (q : Nat) (ps : List String) (rest : List (Nat × List String)) :
    lookupTE ((q, ps) :: rest) q = ps := by
  simp [lookupTE, List.find?_cons]

theorem lookupTE_cons_miss (e : Nat × List String) (rest : List (Nat × List String))
    (q : Nat) (h : e.1 ≠ q) : lookupTE (e :: rest) q = lookupTE rest q := by
  simp [lookupTE, List.find?_cons, h]

theorem lookupTE_absent (te : List (Nat × List String)) (q : Nat)
    (h : ∀ e ∈ te, e.1 ≠ q) : lookupTE te q = [] := by
  induction te with
  | nil => rfl
  | cons e rest ih =>
    rw [lookupTE_cons_miss e rest q (h e (List.mem_cons_self e rest))]
    exact ih (fun x hx => h x (List.mem_cons_of_mem e hx))

theorem lookupTE_append_absent (te1 te2 : List (Nat × List String)) (q : Nat)
    (h : ∀ e ∈ te1, e.1 ≠ q) : lookupTE (te1 ++ te2) q = lookupTE te2 q := by
  induction te1 with
  | nil => rfl
  | cons e rest ih =>
    rw [List.cons_append,
      lookupTE_cons_miss e (rest ++ te2) q (h e (List.mem_cons_self e rest))]
    exact ih (fun x hx => h x (List.mem_cons_of_mem e hx))

theorem teSpec_lookup (ctr : ValidateTable) :
    ∀ (expose : List (Nat × String)) (acc : List (Nat × List String))
      (q : Nat) (proto : String) (ps : List String),
    KeysOK expose →
    (∀ e2 ∈ acc, e2.1 ≠ q) →
    (q, proto) ∈ expose →
    checkProtocol proto false = Except.ok ps →
    lookupTE (expose.foldl (teSpecStep ctr) acc) q =
      ps.filter (fun p => ctr p "0.0.0.0" q = 0) := by
  intro expose
  induction expose with
  | nil =>
    intro acc q proto ps _ _ hmem _
    exact absurd hmem (List.not_mem_nil _)
  | cons e rest ih =>
    intro acc q proto ps hkeys hfresh hmem hcp
    rw [List.foldl_cons]
    have hkeysrest : KeysOK rest := List.Pairwise.sublist (List.sublist_cons_self e rest) hkeys
    have hheadkeys : ∀ e3 ∈ rest, e.1 ≠ e3.1 :=
      fun e3 he3 => List.rel_of_pairwise_cons hkeys he3
    rcases List.mem_cons.mp hmem with hhead | htail
    · -- the entry for q is the head of the expose list
      have hq1 : e.1 = q := by rw [← hhead]
      have hq2 : e.2 = proto := by rw [← hhead]
      obtain ⟨tail, htail2, htmem⟩ := teSpec_extend ctr rest (teSpecStep ctr acc e)
      rw [htail2]
      have htailne : ∀ x ∈ tail, x.1 ≠ q := by
        intro x hx
        obtain ⟨e0, he0, hk⟩ := htmem x hx
        rw [hk]
        intro hcontra
        exact (hheadkeys e0 he0) (hq1.trans hcontra.symm)
      rcases teSpecStep_shape ctr acc e with hs | ⟨f, hf, hfv, hs⟩
      · rw [hs]
        rw [lookupTE_append_absent acc tail q hfresh, lookupTE_absent tail q htailne]
        have hfemp : ps.filter (fun p => ctr p "0.0.0.0" q = 0) = [] := by
          by_contra hne
          unfold teSpecStep at hs
          rw [hq2, hcp] at hs
          dsimp only at hs
          rw [hq1] at hs
          rw [if_neg hne] at hs
          have hlen := congrArg List.length hs
          simp at hlen
        rw [hfemp]
      · have hfval : f = ps.filter (fun p => ctr p "0.0.0.0" q = 0) := by
          rw [hq2, hcp] at hfv
          dsimp only at hfv
          rw [hq1] at hfv
          exact hfv
        rw [hs, List.append_assoc, lookupTE_append_absent acc _ q hfresh,
          List.singleton_append, hq1, lookupTE_cons_hit, hfval]
    · have hfresh2 : ∀ e2 ∈ teSpecStep ctr acc e, e2.1 ≠ q := by
        intro e2 he2
        have hq : e.1 ≠ q := by
          intro hcontra
          have := hheadkeys (q, proto) htail
          rw [hcontra] at this
          exact this rfl
        rcases teSpecStep_sub ctr acc e e2 he2 with hin | hkey
        · exact hfresh e2 hin
        · rw [hkey]
          exact hq
      exact ih _ q proto ps hkeysrest hfresh2 htail hcp

theorem addToExpose_keys (acc : List (Nat × List String)) (q : Nat) (p : String) :
    ∀ e ∈ addToExpose acc q p, (∃ e0 ∈ acc, e.1 = e0.1) ∨ e.1 = q := by
  intro e he
  unfold addToExpose at he
  split at he
  · obtain ⟨e0, he0, hfe⟩ := List.mem_map.mp he
    left
    refine ⟨e0, he0, ?_⟩
    rw [← hfe]
    split
    next hx => rw [hx]
    next => rfl
  · rcases List.mem_append.mp he with h1 | h2
    · exact Or.inl ⟨e, h1, rfl⟩
    · right
      rw [List.mem_singleton.mp h2]

theorem protoFold_keys (ctr : ValidateTable) (q : Nat) (ps : List String) :
    ∀ (acc : List (Nat × List String)), ∀ e ∈ ps.foldl (protoStep ctr q) acc,
      (∃ e0 ∈ acc, e.1 = e0.1) ∨ e.1 = q := by
  induction ps with
  | nil => intro acc e he; exact Or.inl ⟨e, he, rfl⟩
  | cons p ps ih =>
    intro acc e he
    rw [List.foldl_cons] at he
    rcases ih (protoStep ctr q acc p) e he with ⟨e0, he0, hk⟩ | hq
    · unfold protoStep at he0
      split at he0
      · rcases addToExpose_keys acc q p e0 he0 with ⟨e1, he1, hk1⟩ | hq1
        · exact Or.inl ⟨e1, he1, hk.trans hk1⟩
        · exact Or.inr (hk.trans hq1)
      · exact Or.inl ⟨e0, he0, hk⟩
    · exact Or.inr hq

theorem buildToExpose_nonzero (ctr : ValidateTable) (expose : List (Nat × String))
    (te : List (Nat × List String)) (h : buildToExpose ctr expose = Except.ok te) :
    ∀ e ∈ te, e.1 ≠ 0 := by
  unfold buildToExpose at h
  refine foldlM_ok_induction _ (fun acc => ∀ e ∈ acc, e.1 ≠ 0) ?_ expose _ te
    (fun e he => absurd he (List.not_mem_nil e)) h
  intro s a s2 hs hstep
  unfold exposeStep at hstep
  split at hstep
  · exact Except.noConfusion hstep
  · split at hstep
    · exact Except.noConfusion hstep
    next hq0 =>
      have hval := Except.ok.inj hstep
      intro e he
      rw [← hval] at he
      rcases protoFold_keys ctr a.1 _ s e he with ⟨e0, he0, hk⟩ | hq
      · rw [hk]
        exact hs e0 he0
      · rw [hq]
        exact hq0

/-! ### Uniqueness through the auto-publish phase -/

/-- A mapping's host port is recorded in the host-to-container table. -/
def HostReg (table : ValidateTable) (m : OCIPortMapping) : Prop :=
  table m.protocol (resolveIP m.hostIP) m.hostPort.toNat ≠ 0

/-- No existing mapping collides with any still-unallocated expose entry. -/
def NoClash (ms : List OCIPortMapping) (te : List (Nat × List String)) : Prop :=
  ∀ m ∈ ms, ∀ e ∈ te, ∀ p ∈ e.2,
    ¬(m.protocol = p ∧ resolveIP m.hostIP = "0.0.0.0" ∧ m.containerPort = (e.1 : Int))

theorem hostReg_set (t : ValidateTable) (p ip : String) (k v : Nat) (hv : v ≠ 0)
    (m : OCIPortMapping) (h : HostReg t m) : HostReg (t.set p ip k v) m := by
  unfold HostReg at h ⊢
  rw [set_lookup]
  split
  · exact hv
  · exact h

theorem allocProtos_good (oracle : Nat → Nat) (hOr : ∀ i, 1 ≤ oracle i ∧ oracle i ≤ 65535)
    (q : Nat) (hq : ¬ q = 0) :
    ∀ (ps : List String) (rest : List (Nat × List String))
      (table : ValidateTable) (ms : List OCIPortMapping) (idx : Nat)
      (t2 : ValidateTable) (ms2 : List OCIPortMapping) (idx2 : Nat),
      ps.Nodup →
      (∀ e ∈ rest, e.1 ≠ q) →
      ms.Pairwise OKPair →
      (∀ m ∈ ms, HostReg table m) →
      NoClash ms ((q, ps) :: rest) →
      ps.foldlM (fun acc2 p =>
          match allocLoop oracle p q (Nat.pos_of_ne_zero hq) acc2.1 acc2.2.1 acc2.2.2 0 15 with
          | (Except.error e, _) => Except.error e
          | (Except.ok (t, ms), idx2) => Except.ok (t, ms, idx2)) (table, ms, idx) =
        Except.ok (t2, ms2, idx2) →
      ms2.Pairwise OKPair ∧ (∀ m ∈ ms2, HostReg t2 m) ∧ NoClash ms2 rest := by
  intro ps
  induction ps with
  | nil =>
    intro rest table ms idx t2 ms2 idx2 _ _ hpw hreg hnc h
    simp only [List.foldlM_nil] at h
    have htrip := Except.ok.inj h
    have hms : ms = ms2 := congrArg (fun x => x.2.1) htrip
    have ht : table = t2 := congrArg Prod.fst htrip
    rw [← hms, ← ht]
    refine ⟨hpw, hreg, ?_⟩
    intro m hm e he hp
    exact hnc m hm e (List.mem_cons_of_mem _ he) hp
  | cons p ps ih =>
    intro rest table ms idx t2 ms2 idx2 hnd hrest hpw hreg hnc h
    rw [List.foldlM_cons] at h
    rcases halloc : allocLoop oracle p q (Nat.pos_of_ne_zero hq) table ms idx 0 15 with
      ⟨res, nidx⟩
    rw [halloc] at h
    cases res with
    | error e =>
      dsimp only at h
      rw [exbind_err] at h
      exact Except.noConfusion h
    | ok pr =>
      rcases pr with ⟨tmid, msmid⟩
      dsimp only at h
      rw [exbind_ok] at h
      obtain ⟨cand, hc1, hc2, hcfree, htmid, hmsmid⟩ :=
        allocLoop_ok_char oracle p q (Nat.pos_of_ne_zero hq) hOr 15 idx table ms
          tmid msmid nidx halloc
      -- the freshly allocated mapping
      have hcnz : cand ≠ 0 := by omega
      have hnd2 : ps.Nodup := (List.nodup_cons.mp hnd).2
      have hpnotin : p ∉ ps := (List.nodup_cons.mp hnd).1
      have hpw2 : msmid.Pairwise OKPair := by
        rw [hmsmid, List.pairwise_append]
        refine ⟨hpw, List.pairwise_singleton _ _, ?_⟩
        intro a ha b hb
        have hb2 := List.mem_singleton.mp hb
        subst hb2
        intro hproto hipeq
        dsimp only at hproto hipeq
        have hrega := hreg a ha
        unfold HostReg at hrega
        rw [hproto, hipeq] at hrega
        have hres : resolveIP "" = "0.0.0.0" := rfl
        rw [hres] at hrega
        constructor
        · dsimp only
          intro heq
          rw [heq, int_toNat_cast] at hrega
          exact hrega hcfree
        · dsimp only
          intro heq
          exact hnc a ha (q, p :: ps) (List.mem_cons_self _ _) p (List.mem_cons_self p ps)
            ⟨hproto, hipeq.trans hres, heq⟩
      have hreg2 : ∀ m ∈ msmid, HostReg tmid m := by
        intro m hm
        rw [htmid]
        rw [hmsmid] at hm
        rcases List.mem_append.mp hm with hold | hnew
        · exact hostReg_set table p "0.0.0.0" cand q hq m (hreg m hold)
        · have hm2 := List.mem_singleton.mp hnew
          subst hm2
          unfold HostReg
          dsimp only
          rw [int_toNat_cast]
          have hres : resolveIP "" = "0.0.0.0" := rfl
          rw [hres, set_lookup, if_pos ⟨rfl, rfl, rfl⟩]
          exact hq
      have hnc2 : NoClash msmid ((q, ps) :: rest) := by
        intro m hm e he pp hpp
        rw [hmsmid] at hm
        rcases List.mem_append.mp hm with hold | hnew
        · rcases List.mem_cons.mp he with he1 | he2
          · rw [he1] at hpp ⊢
            dsimp only at hpp ⊢
            exact hnc m hold (q, p :: ps) (List.mem_cons_self _ _) pp
              (List.mem_cons_of_mem p hpp)
          · exact hnc m hold e (List.mem_cons_of_mem _ he2) pp hpp
        · have hm2 := List.mem_singleton.mp hnew
          subst hm2
          rintro ⟨h1, h2, h3⟩
          dsimp only at h1 h2 h3
          rcases List.mem_cons.mp he with he1 | he2
          · rw [he1] at hpp
            dsimp only at hpp
            rw [← h1] at hpp
            exact hpnotin hpp
          · have hqe : q = e.1 := by exact_mod_cast h3
            exact (hrest e he2) hqe.symm
      exact ih rest tmid msmid nidx t2 ms2 idx2 hnd2 hrest hpw2 hreg2 hnc2 h

theorem allocTE_good (oracle : Nat → Nat) (hOr : ∀ i, 1 ≤ oracle i ∧ oracle i ≤ 65535) :
    ∀ (te : List (Nat × List String)) (table : ValidateTable)
      (ms : List OCIPortMapping) (idx : Nat)
      (t2 : ValidateTable) (ms2 : List OCIPortMapping) (idx2 : Nat),
    KeysOK te →
    (∀ e ∈ te, e.1 ≠ 0 ∧ e.2.Nodup) →
    ms.Pairwise OKPair →
    (∀ m ∈ ms, HostReg table m) →
    NoClash ms te →
    te.foldlM (fun acc e => allocPort oracle e.1 e.2 acc) (table, ms, idx) =
      Except.ok (t2, ms2, idx2) →
    ms2.Pairwise OKPair := by
  intro te
  induction te with
  | nil =>
    intro table ms idx t2 ms2 idx2 _ _ hpw _ _ h
    simp only [List.foldlM_nil] at h
    have htrip := Except.ok.inj h
    have hms : ms = ms2 := congrArg (fun x => x.2.1) htrip
    rw [← hms]
    exact hpw
  | cons e rest ih =>
    intro table ms idx t2 ms2 idx2 hkeys hprops hpw hreg hnc h
    rw [List.foldlM_cons] at h
    obtain ⟨mid, hstep, hrest⟩ := exbind_ok_inv _ _ _ h
    rcases mid with ⟨tmid, msmid, idxmid⟩
    have hq0 : ¬ e.1 = 0 := (hprops e (List.mem_cons_self e rest)).1
    have hnd : e.2.Nodup := (hprops e (List.mem_cons_self e rest)).2
    unfold allocPort at hstep
    rw [dif_neg hq0] at hstep
    have hrestkeys : ∀ e3 ∈ rest, e3.1 ≠ e.1 := by
      intro e3 he3 hcontra
      exact (List.rel_of_pairwise_cons hkeys he3) hcontra.symm
    have hnc0 : NoClash ms ((e.1, e.2) :: rest) := by
      intro m hm e4 he4 pp hpp
      rcases List.mem_cons.mp he4 with he5 | he5
      · rw [he5]
        exact hnc m hm e (List.mem_cons_self e rest) pp (by rw [he5] at hpp; exact hpp)
      · exact hnc m hm e4 (List.mem_cons_of_mem e he5) pp hpp
    obtain ⟨hpw2, hreg2, hnc2⟩ := allocProtos_good oracle hOr e.1 hq0 e.2 rest table ms idx
      tmid msmid idxmid hnd hrestkeys hpw hreg hnc0 hstep
    exact ih tmid msmid idxmid t2 ms2 idx2
      (List.Pairwise.sublist (List.sublist_cons_self e rest) hkeys)
      (fun e3 he3 => hprops e3 (List.mem_cons_of_mem e he3)) hpw2 hreg2 hnc2 hrest

theorem createPortMappings_pairwise (ipOK : String → Bool) (oracle : Nat → Nat)
    (publish : Bool) (pms : List PortMapping) (sExpose : List (Nat × String))
    (img : Option (List String)) (out : List OCIPortMapping)
    (hOr : ∀ i, 1 ≤ oracle i ∧ oracle i ≤ 65535)
    (h : createPortMappings ipOK oracle publish pms sExpose img = Except.ok out) :
    out.Pairwise OKPair := by
  unfold createPortMappings at h
  obtain ⟨trip, hparse, h2⟩ := exbind_ok_inv _ _ _ h
  rcases trip with ⟨ms0, ctr, host⟩
  dsimp only at h2
  obtain ⟨hz1, hz2, hm, hregi, hpw, hrange⟩ := parsePortMapping_inv ipOK pms ms0 ctr host hparse
  split at h2
  · have hout := Except.ok.inj h2
    rw [← hout]
    exact hpw
  · obtain ⟨expose, hmerge, h3⟩ := exbind_ok_inv _ _ _ h2
    obtain ⟨te, hbuild, h4⟩ := exbind_ok_inv _ _ _ h3
    obtain ⟨r, hfold, h5⟩ := exbind_ok_inv _ _ _ h4
    have hout : out = r.2.1 := (Except.ok.inj h5).symm
    have hkeysE : KeysOK expose := mergeExpose_keysOK sExpose _ expose hmerge
    have hchar : te = expose.foldl (teSpecStep ctr) [] := by
      refine buildToExpose_char ctr expose [] te hkeysE ?_ hbuild
      intro e2 he2
      exact absurd he2 (List.not_mem_nil e2)
    have hkeysTE : KeysOK te := by
      rw [hchar]
      refine teSpec_keysOK ctr expose [] hkeysE ?_ List.Pairwise.nil
      intro e2 he2
      exact absurd he2 (List.not_mem_nil e2)
    have hnz : ∀ e ∈ te, e.1 ≠ 0 := buildToExpose_nonzero ctr expose te hbuild
    have hentry : ∀ x ∈ te, x.2.Nodup ∧ ∀ pp ∈ x.2, ctr pp "0.0.0.0" x.1 = 0 := by
      intro x hx
      rw [hchar] at hx
      rcases teSpec_entries ctr expose [] x hx with hin | ⟨e, _, protocols, hcp, hk, hv, _⟩
      · exact absurd hin (List.not_mem_nil x)
      · constructor
        · rw [hv]
          exact List.Nodup.filter _ (checkProtocol_ok_props _ _ _ hcp).2
        · intro pp hpp
          rw [hv] at hpp
          have hmf := List.mem_filter.mp hpp
          have hdec := of_decide_eq_true hmf.2
          rw [hk]
          exact hdec
    have hprops : ∀ e ∈ te, e.1 ≠ 0 ∧ e.2.Nodup :=
      fun e he => ⟨hnz e he, (hentry e he).1⟩
    have hregHost : ∀ m ∈ ms0, HostReg host m := fun m hm => (hregi m hm).2
    have hnc : NoClash ms0 te := by
      intro m hm e he pp hpp
      rintro ⟨h1, h2x, h3x⟩
      have hr1 := (hregi m hm).1
      rw [h1, h2x, h3x, int_toNat_cast] at hr1
      exact hr1 ((hentry e he).2 pp hpp)
    rcases r with ⟨t2, ms2, idx2⟩
    rw [hout]
    exact allocTE_good oracle hOr te host ms0 0 t2 ms2 idx2 hkeysTE hprops hpw hregHost hnc hfold

theorem foldlM_error_of_mem {α σ : Type} (f : σ → α → Except String σ) (a : α)
    (ha : ∀ s, ∃ e, f s a = Except.error e) :
    ∀ (l : List α), a ∈ l → ∀ s, ∃ e, l.foldlM f s = Except.error e ∧
      ∃ s2 x, f s2 x = Except.error e := by
  intro l
  induction l with
  | nil =>
    intro hmem
    exact absurd hmem (List.not_mem_nil a)
  | cons b l ih =>
    intro hmem s
    rw [List.foldlM_cons]
    cases hfb : f s b with
    | error e =>
      rw [exbind_err]
      exact ⟨e, rfl, s, b, hfb⟩
    | ok s1 =>
      rw [exbind_ok]
      rcases List.mem_cons.mp hmem with hab | hal
      · obtain ⟨e, he⟩ := ha s
        rw [hab] at he
        rw [hfb] at he
        exact Except.noConfusion he
      · exact ih hal s1

set_option maxHeartbeats 1000000 in
theorem conflict_c_ne_host (x y : String) :
    ("conflicting port mappings for container port " ++ x ++ " (protocol " ++ y ++ ")") ≠
      "host port range exceeds maximum allowable port number" := by
  cases x with
  | mk xl =>
    cases y with
    | mk yl =>
      intro h
      have h2 := congrArg (fun s => s.data.head?) h
      have h3 : (("conflicting port mappings for container port " ++ (⟨xl⟩ : String) ++
          " (protocol " ++ (⟨yl⟩ : String) ++ ")").data.head?) = some 'c' := rfl
      exact absurd (h3.symm.trans h2) (by decide)

set_option maxHeartbeats 1000000 in
theorem conflict_h_ne_host (x y : String) :
    ("conflicting port mappings for host port " ++ x ++ " (protocol " ++ y ++ ")") ≠
      "host port range exceeds maximum allowable port number" := by
  cases x with
  | mk xl =>
    cases y with
    | mk yl =>
      intro h
      have h2 := congrArg (fun s => s.data.head?) h
      have h3 : (("conflicting port mappings for host port " ++ (⟨xl⟩ : String) ++
          " (protocol " ++ (⟨yl⟩ : String) ++ ")").data.head?) = some 'c' := rfl
      exact absurd (h3.symm.trans h2) (by decide)

theorem rangeStep_error_msgs (origHostIP p hostIP : String) (cp hp0 : Nat) (st : ParseState)
    (index : Nat) (e : String)
    (h : rangeStep origHostIP p hostIP cp hp0 st index = Except.error e) :
    e ≠ "host port range exceeds maximum allowable port number" := by
  simp only [rangeStep] at h
  repeat'
    first
      | exact Except.noConfusion h
      | split at h
  all_goals
    have he := Except.error.inj h
    rw [← he]
  · decide
  · exact conflict_c_ne_host _ _
  · exact conflict_h_ne_host _ _

theorem rangeStep_zero (origHostIP p hostIP : String) (cp hp0 index : Nat)
    (hz : (hp0 + index) % 65536 = 0) (st : ParseState) :
    rangeStep origHostIP p hostIP cp hp0 st index =
      Except.error "host and container ports cannot be 0" := by
  simp only [rangeStep]
  rw [if_pos (Or.inr hz)]

theorem processPortMapping_boundary (ipOK : String → Bool) (st : ParseState)
    (pm : PortMapping) (ps : List String)
    (hcp : checkProtocol pm.protocol true = Except.ok ps)
    (hip : ipOK (resolveIP pm.hostIP) = true)
    (hc0 : ¬ pm.containerPort = 0)
    (hcb : ¬ ((if pm.range = 0 then 1 else pm.range) - 1) + pm.containerPort > 65535) :
    (((if pm.range = 0 then 1 else pm.range) - 1) +
        (if pm.hostPort = 0 then pm.containerPort else pm.hostPort) > 65536 →
      processPortMapping ipOK st pm =
        Except.error "host port range exceeds maximum allowable port number") ∧
    (((if pm.range = 0 then 1 else pm.range) - 1) +
        (if pm.hostPort = 0 then pm.containerPort else pm.hostPort) = 65536 →
      ∃ e, processPortMapping ipOK st pm = Except.error e ∧
        e ≠ "host port range exceeds maximum allowable port number") := by
  have hunf : processPortMapping ipOK st pm =
      if ((if pm.range = 0 then 1 else pm.range) - 1) +
          (if pm.hostPort = 0 then pm.containerPort else pm.hostPort) > 65536 then
        Except.error "host port range exceeds maximum allowable port number"
      else
        ps.foldlM (fun st2 p =>
          (List.range (if pm.range = 0 then 1 else pm.range)).foldlM
            (rangeStep pm.hostIP p (resolveIP pm.hostIP) pm.containerPort
              (if pm.hostPort = 0 then pm.containerPort else pm.hostPort)) st2) st := by
    simp only [processPortMapping]
    rw [hcp, exbind_ok]
    rw [if_neg (by simp [hip])]
    rw [if_neg hc0]
    rw [if_neg hcb]
  constructor
  · intro hgt
    rw [hunf, if_pos hgt]
  · intro heq
    rw [hunf, if_neg (by omega)]
    obtain ⟨hne, _⟩ := checkProtocol_ok_props _ _ _ hcp
    cases hps : ps with
    | nil => exact absurd hps hne
    | cons p1 ps2 =>
      rw [List.foldlM_cons]
      have hlen1 : 1 ≤ (if pm.range = 0 then 1 else pm.range) := by
        split
        · omega
        next hr => omega
      have hmem : (if pm.range = 0 then 1 else pm.range) - 1 ∈
          List.range (if pm.range = 0 then 1 else pm.range) :=
        List.mem_range.mpr (by omega)
      have hz : ((if pm.hostPort = 0 then pm.containerPort else pm.hostPort) +
          ((if pm.range = 0 then 1 else pm.range) - 1)) % 65536 = 0 := by omega
      obtain ⟨e, hfe, s2, x, hsrc⟩ := foldlM_error_of_mem
        (rangeStep pm.hostIP p1 (resolveIP pm.hostIP) pm.containerPort
          (if pm.hostPort = 0 then pm.containerPort else pm.hostPort))
        ((if pm.range = 0 then 1 else pm.range) - 1)
        (fun s => ⟨_, rangeStep_zero pm.hostIP p1 (resolveIP pm.hostIP) pm.containerPort
          (if pm.hostPort = 0 then pm.containerPort else pm.hostPort)
          ((if pm.range = 0 then 1 else pm.range) - 1) hz s⟩)
        (List.range (if pm.range = 0 then 1 else pm.range)) hmem st
      rw [hfe, exbind_err]
      exact ⟨e, rfl, rangeStep_error_msgs _ _ _ _ _ _ _ _ hsrc⟩

/-! ### Concrete evaluations through the allocation loop -/

theorem cpm_eval_c1 :
    createPortMappings isValidIP (fun _ => 9000) true [] [(80, "udp")] (some ["80/tcp"]) =
      Except.ok [⟨9000, 80, "tcp", ""⟩] := by
  have key := allocLoop_accept (fun _ => 9000) "tcp" 80 (by decide) emptyTable [] 0 15
    (by decide) (by decide) (by decide)
  have h1 : parsePortMapping isValidIP [] = Except.ok ([], emptyTable, emptyTable) := rfl
  have h2 : mergeExpose [(80, "udp")] ["80/tcp"] = Except.ok [(80, "tcp")] := by decide
  have h3 : buildToExpose emptyTable [(80, "tcp")] = Except.ok [(80, ["tcp"])] := by decide
  simp [createPortMappings, h1, h2, h3, exbind_ok, exbind_err, allocPort, key,
    List.foldlM_cons, List.foldlM_nil, int32ofNat]

theorem cpm_eval_c9 :
    createPortMappings isValidIP (fun _ => 9000) true [⟨80, 8080, "127.0.0.1", "tcp", 0⟩]
      [(80, "tcp")] none =
      Except.ok [⟨8080, 80, "tcp", "127.0.0.1"⟩, ⟨9000, 80, "tcp", ""⟩] := by
  have h1 : parsePortMapping isValidIP [⟨80, 8080, "127.0.0.1", "tcp", 0⟩] =
      Except.ok ([⟨8080, 80, "tcp", "127.0.0.1"⟩],
        emptyTable.set "tcp" "127.0.0.1" 80 8080,
        emptyTable.set "tcp" "127.0.0.1" 8080 80) := rfl
  have key := allocLoop_accept (fun _ => 9000) "tcp" 80 (by decide)
    (emptyTable.set "tcp" "127.0.0.1" 8080 80) [⟨8080, 80, "tcp", "127.0.0.1"⟩] 0 15
    (by decide) (by decide) (by decide)
  have h2 : mergeExpose [(80, "tcp")] [] = Except.ok [(80, "tcp")] := by decide
  have h3 : buildToExpose (emptyTable.set "tcp" "127.0.0.1" 80 8080) [(80, "tcp")] =
      Except.ok [(80, ["tcp"])] := by decide
  simp [createPortMappings, h1, h2, h3, exbind_ok, exbind_err, allocPort, key,
    List.foldlM_cons, List.foldlM_nil, int32ofNat]

theorem cpm_eval_c5 :
    createPortMappings isValidIP (fun _ => 8080) true [⟨100, 8080, "", "tcp", 0⟩]
      [(90, "tcp")] none =
      Except.error "failed to find an open port to expose container port 90 on the host" := by
  have h1 : parsePortMapping isValidIP [⟨100, 8080, "", "tcp", 0⟩] =
      Except.ok ([⟨8080, 100, "tcp", ""⟩],
        emptyTable.set "tcp" "0.0.0.0" 100 8080,
        emptyTable.set "tcp" "0.0.0.0" 8080 100) := rfl
  have hcol : ∀ i, (emptyTable.set "tcp" "0.0.0.0" 8080 100) "tcp" "0.0.0.0"
      ((fun (_ : Nat) => 8080) i % 65536) ≠ 0 := by
    intro i
    show (emptyTable.set "tcp" "0.0.0.0" 8080 100) "tcp" "0.0.0.0" 8080 ≠ 0
    decide
  have hx := allocLoop_exhaust (fun _ => 8080) "tcp" 90 (by decide)
    (emptyTable.set "tcp" "0.0.0.0" 8080 100) [⟨8080, 100, "tcp", ""⟩] hcol 15 0
  have h2 : mergeExpose [(90, "tcp")] [] = Except.ok [(90, "tcp")] := by decide
  have h3 : buildToExpose (emptyTable.set "tcp" "0.0.0.0" 100 8080) [(90, "tcp")] =
      Except.ok [(90, ["tcp"])] := by decide
  simp [createPortMappings, h1, h2, h3, exbind_ok, exbind_err, allocPort, hx,
    List.foldlM_cons, List.foldlM_nil]
  decide

/-! ### Claims -/

/-- C1, counterexample: with the explicit-expose map naming port 80 as udp and
the image declaring "80/tcp", the merged expose set does not keep both
protocols: only a tcp mapping is auto-published and no udp mapping exists, so
the merge is not a set union. -/
theorem C1_counterexample :
    createPortMappings isValidIP (fun _ => 9000) true [] [(80, "udp")] (some ["80/tcp"]) =
      Except.ok [⟨9000, 80, "tcp", ""⟩] ∧
    ∀ m ∈ ([⟨9000, 80, "tcp", ""⟩] : List OCIPortMapping), m.protocol ≠ "udp" :=
  ⟨cpm_eval_c1, by decide⟩

/-- C1, amended: when the explicit-expose map and the image-declared set name
the same container port with different protocol specifiers, the image-declared
protocol specifier overwrites the explicit-expose one in the merged expose set
(no union is taken), whatever the explicit protocol was. -/
theorem C1_image_overwrites_expose (protoE : String) :
    mergeExpose [(80, protoE)] ["80/tcp"] = Except.ok [(80, "tcp")] := by
  have h1 : splitN2 "80/tcp" '/' = ("80", some "tcp") := rfl
  have h2 : parseGoInt "80" = some (80 : Int) := rfl
  simp [mergeExpose, setEntry, h1, h2, List.foldlM_cons, List.foldlM_nil]

/-- Witness for C1 at a concrete explicit protocol. -/
theorem C1_image_overwrites_expose_witness :
    mergeExpose [(80, "udp")] ["80/tcp"] = Except.ok [(80, "tcp")] :=
  C1_image_overwrites_expose "udp"

/-- C2, counterexample: the request with host port 65534 and range 3 has
defaulted host port plus range minus one equal to 65536, which exceeds 65535;
it passes the bounds check (the code compares against 65536) and the call
fails with the zero-port error, not with the host-port-range error. -/
theorem C2_counterexample :
    parsedMappings isValidIP [⟨100, 65534, "", "tcp", 3⟩] =
      Except.error "host and container ports cannot be 0" ∧
    ("host and container ports cannot be 0" : String) ≠
      "host port range exceeds maximum allowable port number" ∧
    65534 + 3 - 1 > 65535 := by decide

/-- C2, amended: a request whose defaulted host port plus range minus one
exceeds 65536 fails the bounds check with the host-port-range error; the
boundary value 65536 itself (which already exceeds 65535) is admitted by the
bounds check, and such a request instead fails later with a different error
(the wrapped port reaches 0 in the expansion loop). -/
theorem C2_host_bound_amended (ipOK : String → Bool) (st : ParseState)
    (pm : PortMapping) (ps : List String)
    (hcp : checkProtocol pm.protocol true = Except.ok ps)
    (hip : ipOK (resolveIP pm.hostIP) = true)
    (hc0 : ¬ pm.containerPort = 0)
    (hcb : ¬ ((if pm.range = 0 then 1 else pm.range) - 1) + pm.containerPort > 65535) :
    (((if pm.range = 0 then 1 else pm.range) - 1) +
        (if pm.hostPort = 0 then pm.containerPort else pm.hostPort) > 65536 →
      processPortMapping ipOK st pm =
        Except.error "host port range exceeds maximum allowable port number") ∧
    (((if pm.range = 0 then 1 else pm.range) - 1) +
        (if pm.hostPort = 0 then pm.containerPort else pm.hostPort) = 65536 →
      ∃ e, processPortMapping ipOK st pm = Except.error e ∧
        e ≠ "host port range exceeds maximum allowable port number") :=
  processPortMapping_boundary ipOK st pm ps hcp hip hc0 hcb

/-- Witness for C2 at the boundary input. -/
theorem C2_host_bound_amended_witness :
    ∃ e, processPortMapping isValidIP ⟨[], emptyTable, emptyTable⟩
        ⟨100, 65534, "", "tcp", 3⟩ = Except.error e ∧
      e ≠ "host port range exceeds maximum allowable port number" :=
  (C2_host_bound_amended isValidIP ⟨[], emptyTable, emptyTable⟩ ⟨100, 65534, "", "tcp", 3⟩
    ["tcp"] (by decide) (by decide) (by decide) (by decide)).2 (by decide)

/-- C3: on every successful run of `createPortMappings` (the Ephemeral Port
Source returning valid port numbers), no two distinct entries of the result
share protocol, resolved host IP (empty resolves to the wildcard) and host
port, nor protocol, resolved host IP and container port. -/
theorem C3_unique_triples (ipOK : String → Bool) (oracle : Nat → Nat) (publish : Bool)
    (pms : List PortMapping) (sExpose : List (Nat × String)) (img : Option (List String))
    (out : List OCIPortMapping)
    (hOr : ∀ i, 1 ≤ oracle i ∧ oracle i ≤ 65535)
    (h : createPortMappings ipOK oracle publish pms sExpose img = Except.ok out) :
    out.Pairwise (fun m1 m2 =>
      ¬(m1.protocol = m2.protocol ∧ resolveIP m1.hostIP = resolveIP m2.hostIP ∧
        m1.hostPort = m2.hostPort) ∧
      ¬(m1.protocol = m2.protocol ∧ resolveIP m1.hostIP = resolveIP m2.hostIP ∧
        m1.containerPort = m2.containerPort)) := by
  have hp := createPortMappings_pairwise ipOK oracle publish pms sExpose img out hOr h
  exact hp.imp (fun hab =>
    ⟨fun ⟨h1, h2, h3⟩ => (hab h1 h2).1 h3, fun ⟨h1, h2, h3⟩ => (hab h1 h2).2 h3⟩)

/-- Witness for C3 on a concrete successful run. -/
theorem C3_unique_triples_witness :
    List.Pairwise (fun m1 m2 : OCIPortMapping =>
      ¬(m1.protocol = m2.protocol ∧ resolveIP m1.hostIP = resolveIP m2.hostIP ∧
        m1.hostPort = m2.hostPort) ∧
      ¬(m1.protocol = m2.protocol ∧ resolveIP m1.hostIP = resolveIP m2.hostIP ∧
        m1.containerPort = m2.containerPort)) [⟨8080, 80, "tcp", ""⟩] :=
  C3_unique_triples isValidIP (fun _ => 9000) false [⟨80, 8080, "", "tcp", 0⟩] [] none
    [⟨8080, 80, "tcp", ""⟩]
    (fun _ => ⟨(by decide : (1 : Nat) ≤ 9000), (by decide : (9000 : Nat) ≤ 65535)⟩) rfl

/-- C4: at every successful return of `parsePortMapping`, the two
conflict-tracking tables mirror each other: a container port mapped to a
nonzero host port is mapped back to that container port by the host table,
and symmetrically; value 0 means unclaimed. -/
theorem C4_tables_mirror (ipOK : String → Bool) (pms : List PortMapping)
    (ms : List OCIPortMapping) (ctr host : ValidateTable)
    (h : parsePortMapping ipOK pms = Except.ok (ms, ctr, host)) :
    (∀ p ip c hv, ctr p ip c = hv → hv ≠ 0 → host p ip hv = c) ∧
    (∀ p ip hv cv, host p ip hv = cv → cv ≠ 0 → ctr p ip cv = hv) := by
  obtain ⟨_, _, hm, _, _, _⟩ := parsePortMapping_inv ipOK pms ms ctr host h
  dsimp only at hm
  constructor
  · intro p ip c hv heq hne
    have hstep := hm.1 p ip c (by rw [heq]; exact hne)
    rw [heq] at hstep
    exact hstep
  · intro p ip hv cv heq hne
    have hstep := hm.2 p ip hv (by rw [heq]; exact hne)
    rw [heq] at hstep
    exact hstep

/-- Witness for C4 on a concrete successful run. -/
theorem C4_tables_mirror_witness :
    ∃ ms ctr host, parsePortMapping isValidIP [⟨80, 8080, "", "tcp", 0⟩] =
        Except.ok (ms, ctr, host) ∧
      ((∀ p ip c hv, ctr p ip c = hv → hv ≠ 0 → host p ip hv = c) ∧
       (∀ p ip hv cv, host p ip hv = cv → cv ≠ 0 → ctr p ip cv = hv)) :=
  ⟨_, _, _, rfl, C4_tables_mirror isValidIP [⟨80, 8080, "", "tcp", 0⟩] _ _ _ rfl⟩

/-- C5: if every probe of the Ephemeral Port Source returns a port already
claimed in the host-to-container table for the protocol under the wildcard
host IP, the allocation loop fails with the exhaustion error after consuming
exactly 15 probes; concretely, `createPortMappings` fails that way end to end
when the source always returns an already-mapped port. -/
theorem C5_exhausts_after_15 (oracle : Nat → Nat) (p : String) (port : Nat)
    (hp : 0 < port) (table : ValidateTable) (ms : List OCIPortMapping) (idx : Nat)
    (hcol : ∀ i, table p "0.0.0.0" (oracle i % 65536) ≠ 0) :
    allocLoop oracle p port hp table ms idx 0 15 =
      (Except.error ("failed to find an open port to expose container port " ++
        toString port ++ " on the host"), idx + 15) ∧
    createPortMappings isValidIP (fun _ => 8080) true [⟨100, 8080, "", "tcp", 0⟩]
      [(90, "tcp")] none =
      Except.error "failed to find an open port to expose container port 90 on the host" :=
  ⟨allocLoop_exhaust oracle p port hp table ms hcol 15 idx, cpm_eval_c5⟩

/-- Witness for C5 with a stubbed always-colliding port source. -/
theorem C5_exhausts_after_15_witness :
    allocLoop (fun _ => 8080) "tcp" 90 (Nat.succ_pos 89)
        (emptyTable.set "tcp" "0.0.0.0" 8080 100) [] 0 0 15 =
      (Except.error ("failed to find an open port to expose container port " ++
        toString 90 ++ " on the host"), 0 + 15) :=
  (C5_exhausts_after_15 (fun _ => 8080) "tcp" 90 (Nat.succ_pos 89)
    (emptyTable.set "tcp" "0.0.0.0" 8080 100) [] 0
    (fun i => by
      show (emptyTable.set "tcp" "0.0.0.0" 8080 100) "tcp" "0.0.0.0" 8080 ≠ 0
      decide)).1

/-- C6: submitting the identical request (container 80, host 8080, tcp) twice
in one list succeeds with exactly one finalized mapping and no error. -/
theorem C6_duplicate_request :
    parsedMappings isValidIP [⟨80, 8080, "", "tcp", 0⟩, ⟨80, 8080, "", "tcp", 0⟩] =
      Except.ok [⟨8080, 80, "tcp", ""⟩] := by decide

/-- C7: protocol sctp in an auto-expose entry (image-declared or
explicit-expose) makes `createPortMappings` fail with the SCTP-not-allowed
error, since `checkProtocol` runs with allowSCTP false there; the same
protocol in an explicit user mapping passes `parsePortMapping`, where
allowSCTP is true. -/
theorem C7_sctp_restriction :
    createPortMappings isValidIP (fun _ => 9000) true [] [] (some ["53/sctp"]) =
      Except.error ("error validating protocols for exposed port 53: " ++
        "protocol SCTP is not allowed for exposed ports") ∧
    createPortMappings isValidIP (fun _ => 9000) true [] [(53, "sctp")] none =
      Except.error ("error validating protocols for exposed port 53: " ++
        "protocol SCTP is not allowed for exposed ports") ∧
    checkProtocol "sctp" false =
      Except.error "protocol SCTP is not allowed for exposed ports" ∧
    checkProtocol "sctp" true = Except.ok ["sctp"] ∧
    parsedMappings isValidIP [⟨53, 2000, "", "sctp", 0⟩] =
      Except.ok [⟨2000, 53, "sctp", ""⟩] := by decide

/-- C8: the single request (container 8000, host 9000, range 3, tcp) yields
exactly the three offset mappings and nothing else. -/
theorem C8_range_expansion :
    parsedMappings isValidIP [⟨8000, 9000, "", "tcp", 3⟩] =
      Except.ok [⟨9000, 8000, "tcp", ""⟩, ⟨9001, 8001, "tcp", ""⟩,
        ⟨9002, 8002, "tcp", ""⟩] := by decide

/-- C9: in the merged expose set, a container port is marked for
auto-publication under exactly those of its protocols for which the
container-to-host table holds no claim under the wildcard host IP; in
particular an explicit mapping of the same container port bound to the
specific host IP 127.0.0.1 does not prevent wildcard auto-publication. -/
theorem C9_wildcard_mark (ctr : ValidateTable) (expose : List (Nat × String))
    (te : List (Nat × List String)) (q : Nat) (proto : String) (ps : List String)
    (hkeys : KeysOK expose)
    (hmem : (q, proto) ∈ expose)
    (hps : checkProtocol proto false = Except.ok ps)
    (hbuild : buildToExpose ctr expose = Except.ok te) :
    lookupTE te q = ps.filter (fun p => ctr p "0.0.0.0" q = 0) ∧
    createPortMappings isValidIP (fun _ => 9000) true [⟨80, 8080, "127.0.0.1", "tcp", 0⟩]
      [(80, "tcp")] none =
      Except.ok [⟨8080, 80, "tcp", "127.0.0.1"⟩, ⟨9000, 80, "tcp", ""⟩] := by
  constructor
  · have hchar : te = expose.foldl (teSpecStep ctr) [] := by
      refine buildToExpose_char ctr expose [] te hkeys ?_ hbuild
      intro e2 he2
      exact absurd he2 (List.not_mem_nil e2)
    rw [hchar]
    refine teSpec_lookup ctr expose [] q proto ps hkeys ?_ hmem hps
    intro e2 he2
    exact absurd he2 (List.not_mem_nil e2)
  · exact cpm_eval_c9

/-- Witness for C9 on a concrete expose set. -/
theorem C9_wildcard_mark_witness :
    lookupTE [(80, ["tcp"])] 80 =
      (["tcp"].filter (fun p => emptyTable p "0.0.0.0" 80 = 0)) :=
  (C9_wildcard_mark emptyTable [(80, "tcp")] [(80, ["tcp"])] 80 "tcp" ["tcp"]
    (List.pairwise_singleton _ _) (by decide) (by decide) (by decide)).1

/-- C10: every finalized mapping emitted by a successful `parsePortMapping`
has host and container port in [1, 65535]; in the boundary case the bounds
check admits (host port plus range minus one equal to 65536) the wrapping
16-bit addition reaches 0 at the last offset and the call fails on the
zero-port check, so no mapping with port 0 is ever returned. -/
theorem C10_ports_in_range (ipOK : String → Bool) (pms : List PortMapping)
    (ms : List OCIPortMapping) (ctr host : ValidateTable)
    (h : parsePortMapping ipOK pms = Except.ok (ms, ctr, host)) :
    (∀ m ∈ ms, 1 ≤ m.hostPort ∧ m.hostPort ≤ 65535 ∧
      1 ≤ m.containerPort ∧ m.containerPort ≤ 65535) ∧
    parsedMappings isValidIP [⟨100, 65534, "", "tcp", 3⟩] =
      Except.error "host and container ports cannot be 0" := by
  obtain ⟨_, _, _, _, _, hir⟩ := parsePortMapping_inv ipOK pms ms ctr host h
  exact ⟨fun m hm => hir m hm, by decide⟩

/-- Witness for C10 on a concrete successful run. -/
theorem C10_ports_in_range_witness :
    ∃ ms ctr host, parsePortMapping isValidIP [⟨80, 8080, "", "tcp", 0⟩] =
        Except.ok (ms, ctr, host) ∧
      ((∀ m ∈ ms, 1 ≤ m.hostPort ∧ m.hostPort ≤ 65535 ∧
        1 ≤ m.containerPort ∧ m.containerPort ≤ 65535) ∧
       parsedMappings isValidIP [⟨100, 65534, "", "tcp", 3⟩] =
         Except.error "host and container ports cannot be 0") :=
  ⟨_, _, _, rfl, C10_ports_in_range isValidIP [⟨80, 8080, "", "tcp", 0⟩] _ _ _ rfl⟩
